import Mathlib

/-!
Verification of the utility functions in `src/utils.py` of the
open-source-analysis-notebook repository.

The embedding models the dynamically typed Python values that the two
heuristic functions (`detect_language`, `extract_city`) inspect, the
string primitives they rely on (`str.split`, `str.split(",")`,
`str.strip`, `str.lower`, `str.title`, `str.endswith`, and the regex
substitutions with patterns `\b(egypt)\b` and `[^a-zA-Z\s]`), and the
sort-then-head core of `top_ranked_repos`.  ASCII inputs are assumed
for the case conversions and whitespace classes, which matches every
input exercised by the analysis scripts.
-/

/-- Dynamically typed Python values, restricted to the shapes the
repository record fields can take. -/
inductive PyVal : Type where
  | PStr  (s : String)
  | PInt  (n : Int)
  | PList (xs : List PyVal)
  | PNone
deriving Repr

/-- A Python dict with string keys, as an association list (first
binding wins, mirroring unique dict keys). -/
def PyDict : Type := List (String × PyVal)

/-- Embedding of `dict.get(key)`: `none` models the absent-key result. -/
def pyGet : PyDict → String → Option PyVal
  | [], _ => none
  | (k, v) :: rest, key => if k = key then some v else pyGet rest key

/-- Python `str.lower()` (ASCII fragment, which covers every input the
analysis feeds in). -/
def pyLower (s : String) : String := String.mk (s.data.map Char.toLower)

/-- Python `str.strip()` with no argument: drop whitespace from both
ends. -/
def pyStrip (s : String) : String :=
  String.mk (((s.data.dropWhile (fun c => c.isWhitespace)).reverse.dropWhile
    (fun c => c.isWhitespace)).reverse)

/-- Python `str.endswith(suffix)` for one suffix: an empty suffix
always matches, as in Python. -/
def pyEndsWith (s suf : String) : Bool := List.isSuffixOf suf.data s.data

/-- Splits a character list at every character satisfying `p`, keeping
empty chunks, with `acc` the (reversed) chunk under construction.  This
is the core of Python `str.split(sep)`. -/
def splitPredAux (p : Char → Bool) (acc : List Char) : List Char → List (List Char)
  | [] => [acc.reverse]
  | c :: cs => if p c then acc.reverse :: splitPredAux p [] cs else splitPredAux p (c :: acc) cs

/-- Python `str.split()` (no argument): split on whitespace runs and
drop empty chunks. -/
def pySplitWs (s : String) : List String :=
  ((splitPredAux (fun c => c.isWhitespace) [] s.data).filter (fun w => w ≠ [])).map String.mk

/-- Python `str.split(",")`: split on each comma, keeping empty chunks
and surrounding whitespace of every chunk. -/
def pySplitComma (s : String) : List String :=
  (splitPredAux (fun c => c = ',') [] s.data).map String.mk

/-- The candidate word list of `detect_language`:
`set(repo_description.lower().split() + topics.lower().split(","))`.
Only membership is ever queried, so a list models the Python set. -/
def textWords (desc topics : String) : List String :=
  pySplitWs (pyLower desc) ++ pySplitComma (pyLower topics)

/-- The inner filename loop of `detect_language`:
`for file in repo[ 'filenames' ]: if file.endswith(tuple(identifiers)): return lang`.
A non-string element raises in Python (`.error ()` here); an empty
identifier tuple never matches, as in Python. -/
def fileLoop (ids : List String) : List PyVal → Except Unit Bool
  | [] => .ok false
  | .PStr s :: rest =>
      if ids.any (fun id => pyEndsWith s id) then .ok true else fileLoop ids rest
  | _ :: _ => .error ()

/-- The per-language check of `detect_language`: first the keyword
membership loop over `identifiers`, then (only when no keyword is a
member of the candidate word set) the filename suffix loop. -/
def checkLang (tw : List String) (fs : List PyVal) (ids : List String) : Except Unit Bool :=
  if ids.any (fun w => tw.contains w) then .ok true else fileLoop ids fs

/-- The outer loop of `detect_language` over the keyword table in its
insertion order: the first language whose check succeeds is returned. -/
def langLoop (tw : List String) (fs : List PyVal) :
    List (String × List String) → Except Unit (Option String)
  | [] => .ok none
  | (lang, ids) :: rest =>
      match checkLang tw fs ids with
      | .ok true => .ok (some lang)
      | .ok false => langLoop tw fs rest
      | .error e => .error e

/-- The check `isinstance(repo.get(k), str)` together with the later
read `repo[k]`: `some` exactly when the field is present and a string. -/
def asStr : Option PyVal → Option String
  | some (.PStr s) => some s
  | _ => none

/-- The check `isinstance(repo.get(k), list)` together with the later
read `repo[k]`: `some` exactly when the field is present and a list. -/
def asList : Option PyVal → Option (List PyVal)
  | some (.PList xs) => some xs
  | _ => none

/-- Embedding of `detect_language`.  `config` is the result of opening
and parsing `./data/json_files/languages_keywords.json`: `.ok table`
when the file is present and well formed, `.error ()` when opening or
parsing it would raise.  The field type checks happen before the file
is touched, exactly as in the source; a failed check yields `.ok none`
(the function returns `None` without raising). -/
def detect_language (config : Except Unit (List (String × List String)))
    (repo : PyDict) : Except Unit (Option String) :=
  match asStr (pyGet repo "repo_description"), asStr (pyGet repo "topics"),
      asList (pyGet repo "filenames") with
  | some desc, some topics, some filenames =>
      match config with
      | .error e => .error e
      | .ok languages_keywords => langLoop (textWords desc topics) filenames languages_keywords
  | _, _, _ => .ok none

/-- Python word characters for the `\b` boundary of the regex
`\b(egypt)\b` (ASCII fragment of `\w`). -/
def isWordChar (c : Char) : Bool := c.isAlphanum || c = '_'

/-- The position before a match start is a word boundary when the
previous character is absent or not a word character (the first matched
character 'e' is a word character). -/
def prevOk : Option Char → Bool
  | none => true
  | some p => !isWordChar p

/-- The position after a match end is a word boundary when the next
character is absent or not a word character. -/
def nextOk : List Char → Bool
  | [] => true
  | r :: _ => !isWordChar r

/-- Left-to-right scan of `re.sub(r'\b(egypt)\b', '', location)`:
non-overlapping matches of the literal word "egypt" delimited by word
boundaries are deleted; boundaries are judged on the original
characters, and scanning resumes after each match. -/
def stripEgyptAux : Option Char → List Char → List Char
  | _, [] => []
  | prev, 'e' :: 'g' :: 'y' :: 'p' :: 't' :: rest =>
      if prevOk prev && nextOk rest then stripEgyptAux (some 't') rest
      else 'e' :: stripEgyptAux (some 'e') ('g' :: 'y' :: 'p' :: 't' :: rest)
  | _, c :: cs => c :: stripEgyptAux (some c) cs

/-- String form of the country-name removal. -/
def stripEgypt (s : String) : String := String.mk (stripEgyptAux none s.data)

/-- One step of Python `str.title()`: the first letter of each run of
letters is uppercased, the following letters are lowercased. -/
def pyTitleAux : Bool → List Char → List Char
  | _, [] => []
  | prevAlpha, c :: cs =>
      (if c.isAlpha then (if prevAlpha then c.toLower else c.toUpper) else c) ::
        pyTitleAux c.isAlpha cs

/-- Python `str.title()`. -/
def pyTitle (s : String) : String := String.mk (pyTitleAux false s.data)

/-- The character filter `re.sub(r'[^a-zA-Z\s]', '', location)`: keep
only ASCII letters and whitespace. -/
def cityLetters (loc : String) : String :=
  String.mk (loc.data.filter (fun c => c.isAlpha || c.isWhitespace))

/-- Embedding of `extract_city`.  Non-string input returns `none`; the
string is trimmed and lowercased; word-boundary occurrences of "egypt"
are deleted; an empty remainder returns the sentinel "Egypt"; otherwise
characters other than ASCII letters and whitespace are deleted
(`re.sub(r'[^a-zA-Z\s]', '', location)`), the remainder is whitespace
split, and a non-empty word list is joined by single spaces and
title-cased, while an empty word list falls through the final `if`
(Python implicitly returns `None`). -/
def extract_city (v : PyVal) : Option String :=
  match v with
  | .PStr s =>
      let location := stripEgypt (pyLower (pyStrip s))
      if location = "" then some "Egypt"
      else
        let parts := pySplitWs (cityLetters location)
        if parts.length > 0 then some (pyTitle (" ".intercalate parts)) else none
  | _ => none

/-- The descending order on rows induced by the numeric feature column
`key`, used by `df.sort_values(by=feature, ascending=False)`. -/
def rankDesc {α : Type} (key : α → Int) (a b : α) : Prop := key b ≤ key a

instance {α : Type} (key : α → Int) : DecidableRel (rankDesc key) :=
  fun _ _ => Int.decLe _ _

instance {α : Type} (key : α → Int) : IsTotal α (rankDesc key) :=
  ⟨fun x y => le_total (key y) (key x)⟩

instance {α : Type} (key : α → Int) : IsTrans α (rankDesc key) :=
  ⟨fun _ _ _ hab hbc => le_trans hbc hab⟩

/-- Data core of `top_ranked_repos`:
`df.sort_values(by=feature, ascending=False).head(n)`.  The plotting
side effects draw to the display and do not touch the returned table.
pandas' default sort kind is not stable, so any correct descending sort
models it; rows are `α`, the feature column is `key`. -/
def top_ranked_repos {α : Type} (df : List α) (key : α → Int) (n : Nat) : List α :=
  (List.insertionSort (rankDesc key) df).take n

/-! ### Concrete tables and records used by the spec examples -/

/-- The two-language keyword table of the spec examples. -/
def exTable : List (String × List String) :=
  [("Python", ["python", ".py"]), ("Go", ["golang", ".go"])]

/-- The record with description "a python tool", empty topics and no
filenames. -/
def exRepoDesc : PyDict :=
  [("repo_description", .PStr "a python tool"), ("topics", .PStr ""),
   ("filenames", .PList [])]

/-- The record with empty description and topics and the single
filename "main.go". -/
def exRepoFiles : PyDict :=
  [("repo_description", .PStr ""), ("topics", .PStr ""),
   ("filenames", .PList [.PStr "main.go"])]

/-! ### Helper lemmas about the detection loop -/

theorem langLoop_skip_unmatched (tw : List String) (fs : List PyVal)
    (t₁ rest : List (String × List String))
    (h : ∀ p ∈ t₁, checkLang tw fs p.2 = .ok false) :
    langLoop tw fs (t₁ ++ rest) = langLoop tw fs rest := by
  induction t₁ with
  | nil => rfl
  | cons p t ih =>
      obtain ⟨lang, ids⟩ := p
      have hp : checkLang tw fs ids = .ok false := h (lang, ids) (by simp)
      have ht : ∀ q ∈ t, checkLang tw fs q.2 = .ok false :=
        fun q hq => h q (by simp [hq])
      simpa [langLoop, hp] using ih ht

theorem langLoop_no_match (tw : List String) (fs : List PyVal)
    (t : List (String × List String))
    (h : ∀ p ∈ t, checkLang tw fs p.2 = .ok false) :
    langLoop tw fs t = .ok none := by
  simpa using langLoop_skip_unmatched tw fs t [] h

theorem langLoop_head_match (tw : List String) (fs : List PyVal)
    (lang : String) (ids : List String) (rest : List (String × List String))
    (h : checkLang tw fs ids = .ok true) :
    langLoop tw fs ((lang, ids) :: rest) = .ok (some lang) := by
  simp [langLoop, h]

theorem fileLoop_strings (ids : List String) (fs : List String) :
    fileLoop ids (fs.map .PStr) =
      .ok (fs.any (fun s => ids.any (fun id => pyEndsWith s id))) := by
  induction fs with
  | nil => rfl
  | cons s rest ih =>
      by_cases h : ids.any (fun id => pyEndsWith s id)
      · simp [fileLoop, h]
      · simp [fileLoop, h, ih]

theorem detect_language_valid_fields (table : List (String × List String))
    (repo : PyDict) (desc topics : String) (fs : List PyVal)
    (h₁ : asStr (pyGet repo "repo_description") = some desc)
    (h₂ : asStr (pyGet repo "topics") = some topics)
    (h₃ : asList (pyGet repo "filenames") = some fs) :
    detect_language (.ok table) repo = langLoop (textWords desc topics) fs table := by
  unfold detect_language
  rw [h₁, h₂, h₃]

theorem detect_language_invalid_fields
    (config : Except Unit (List (String × List String))) (repo : PyDict)
    (h : asStr (pyGet repo "repo_description") = none ∨
         asStr (pyGet repo "topics") = none ∨
         asList (pyGet repo "filenames") = none) :
    detect_language config repo = .ok none := by
  unfold detect_language
  rcases h₁ : asStr (pyGet repo "repo_description") with _ | d <;>
    rcases h₂ : asStr (pyGet repo "topics") with _ | t <;>
      rcases h₃ : asList (pyGet repo "filenames") with _ | fs <;>
        simp_all

/-! ### Claim theorems for detect_language -/

/-- Claim C1, counterexample.  With the table `{"Go": [".go"],
"Python": ["python"]}` and a record whose description contains the
word "python" and whose filename list holds "main.go", the first
language in table order one of whose identifiers is a member of the
candidate word set is "Python" (no identifier of "Go" is a member),
yet `detect_language` returns "Go", because the filename suffix check
of the earlier language fires before any keyword check of a later
language is reached. -/
theorem detect_language_first_member_refuted :
    ("python" ∈ textWords "python" "" ∧ ".go" ∉ textWords "python" "") ∧
    detect_language (.ok [("Go", [".go"]), ("Python", ["python"])])
      [("repo_description", .PStr "python"), ("topics", .PStr ""),
       ("filenames", .PList [.PStr "main.go"])] = .ok (some "Go") ∧
    ("Go" : String) ≠ "Python" :=
  ⟨⟨by decide, by decide⟩, by rfl, by decide⟩

/-- Claim C1, amended: for every valid repository record and keyword
table, `detect_language` returns the first language in table insertion
order whose per-language check succeeds, where the check first tests
identifier membership in the candidate word set and then filename
suffixes — so an earlier language may win through a filename suffix
even when a later language has a keyword member.  With the table
`exTable` and the record with description "a python tool" it returns
"Python", and it returns `None` when no language check succeeds after
exhausting the table. -/
theorem detect_language_first_check_wins :
    detect_language (.ok exTable) exRepoDesc = .ok (some "Python") ∧
    (∀ (repo : PyDict) (desc topics : String) (fs : List PyVal)
        (table : List (String × List String)),
      asStr (pyGet repo "repo_description") = some desc →
      asStr (pyGet repo "topics") = some topics →
      asList (pyGet repo "filenames") = some fs →
      (∀ p ∈ table, checkLang (textWords desc topics) fs p.2 = Except.ok false) →
      detect_language (.ok table) repo = .ok none) ∧
    (∀ (repo : PyDict) (desc topics : String) (fs : List PyVal)
        (t₁ t₂ : List (String × List String)) (lang : String) (ids : List String),
      asStr (pyGet repo "repo_description") = some desc →
      asStr (pyGet repo "topics") = some topics →
      asList (pyGet repo "filenames") = some fs →
      (∀ p ∈ t₁, checkLang (textWords desc topics) fs p.2 = Except.ok false) →
      checkLang (textWords desc topics) fs ids = Except.ok true →
      detect_language (.ok (t₁ ++ (lang, ids) :: t₂)) repo = .ok (some lang)) := by
  refine ⟨by rfl, ?_, ?_⟩
  · intro repo desc topics fs table h₁ h₂ h₃ hall
    rw [detect_language_valid_fields table repo desc topics fs h₁ h₂ h₃]
    exact langLoop_no_match _ _ _ hall
  · intro repo desc topics fs t₁ t₂ lang ids h₁ h₂ h₃ hskip hhit
    rw [detect_language_valid_fields _ repo desc topics fs h₁ h₂ h₃,
      langLoop_skip_unmatched _ _ _ _ hskip]
    exact langLoop_head_match _ _ _ _ _ hhit

/-- Claim C1, witness for the amended theorem: the concrete spec
example, the empty table, and the example table decomposed at its
"Python" entry. -/
theorem detect_language_first_check_wins_witness :
    detect_language (.ok exTable) exRepoDesc = .ok (some "Python") ∧
    detect_language (.ok []) exRepoDesc = .ok none ∧
    detect_language (.ok ([] ++ ("Python", ["python", ".py"]) :: [("Go", ["golang", ".go"])]))
      exRepoDesc = .ok (some "Python") :=
  ⟨detect_language_first_check_wins.1,
   detect_language_first_check_wins.2.1 exRepoDesc "a python tool" "" [] []
     (by rfl) (by rfl) (by rfl) (by intro p hp; simp at hp),
   detect_language_first_check_wins.2.2 exRepoDesc "a python tool" "" []
     [] [("Go", ["golang", ".go"])] "Python" ["python", ".py"]
     (by rfl) (by rfl) (by rfl) (by intro p hp; simp at hp) (by rfl)⟩

/-- Claim C2: when a valid repository record reaches a language (every
earlier table entry fails its check) whose candidate word set contains
no keyword of that language, `detect_language` returns that language as
soon as some filename in the record ends with some identifier of the
language; in particular, with the example table and the record with
empty description and topics and filenames ["main.go"], it returns
"Go". -/
theorem detect_language_filename_suffix :
    (∀ (repo : PyDict) (desc topics : String) (fs : List String)
        (t₁ t₂ : List (String × List String)) (lang : String) (ids : List String),
      asStr (pyGet repo "repo_description") = some desc →
      asStr (pyGet repo "topics") = some topics →
      asList (pyGet repo "filenames") = some (fs.map .PStr) →
      (∀ p ∈ t₁, checkLang (textWords desc topics) (fs.map .PStr) p.2 = Except.ok false) →
      ids.any (fun w => (textWords desc topics).contains w) = false →
      fs.any (fun f => ids.any (fun id => pyEndsWith f id)) = true →
      detect_language (.ok (t₁ ++ (lang, ids) :: t₂)) repo = .ok (some lang)) ∧
    detect_language (.ok exTable) exRepoFiles = .ok (some "Go") := by
  refine ⟨?_, by rfl⟩
  intro repo desc topics fs t₁ t₂ lang ids h₁ h₂ h₃ hskip hnokw hsuffix
  have hcheck : checkLang (textWords desc topics) (fs.map .PStr) ids = .ok true := by
    rw [checkLang, hnokw]
    simpa [fileLoop_strings] using hsuffix
  rw [detect_language_valid_fields _ repo desc topics _ h₁ h₂ h₃,
    langLoop_skip_unmatched _ _ _ _ hskip]
  exact langLoop_head_match _ _ _ _ _ hcheck

/-- Claim C2, witness: the example table decomposed at its "Go" entry,
with filenames ["main.go"] and empty description and topics. -/
theorem detect_language_filename_suffix_witness :
    detect_language (.ok ([("Python", ["python", ".py"])] ++
      ("Go", ["golang", ".go"]) :: [])) exRepoFiles = .ok (some "Go") :=
  detect_language_filename_suffix.1 exRepoFiles "" "" ["main.go"]
    [("Python", ["python", ".py"])] [] "Go" ["golang", ".go"]
    (by rfl) (by rfl) (by rfl)
    (by intro p hp; simp at hp; subst hp; rfl)
    (by rfl) (by rfl)

/-- Claim C3: `detect_language` is first-match-wins and deterministic.
If two languages in a valid record's table both pass their per-language
check and every entry before the first of them fails its check, the
language appearing first in table insertion order is returned; and the
result is a function of the inputs alone — equal config and record give
equal results. -/
theorem detect_language_first_match_deterministic :
    (∀ (repo : PyDict) (desc topics : String) (fs : List PyVal)
        (t₁ t₂ t₃ : List (String × List String))
        (l₁ l₂ : String) (ids₁ ids₂ : List String),
      asStr (pyGet repo "repo_description") = some desc →
      asStr (pyGet repo "topics") = some topics →
      asList (pyGet repo "filenames") = some fs →
      (∀ p ∈ t₁, checkLang (textWords desc topics) fs p.2 = Except.ok false) →
      checkLang (textWords desc topics) fs ids₁ = Except.ok true →
      checkLang (textWords desc topics) fs ids₂ = Except.ok true →
      detect_language (.ok (t₁ ++ ((l₁, ids₁) :: (t₂ ++ (l₂, ids₂) :: t₃)))) repo
        = .ok (some l₁)) ∧
    (∀ (c₁ c₂ : Except Unit (List (String × List String))) (r₁ r₂ : PyDict),
      c₁ = c₂ → r₁ = r₂ → detect_language c₁ r₁ = detect_language c₂ r₂) := by
  refine ⟨?_, ?_⟩
  · intro repo desc topics fs t₁ t₂ t₃ l₁ l₂ ids₁ ids₂ h₁ h₂ h₃ hskip hhit₁ _
    rw [detect_language_valid_fields _ repo desc topics fs h₁ h₂ h₃,
      langLoop_skip_unmatched _ _ _ _ hskip]
    exact langLoop_head_match _ _ _ _ _ hhit₁
  · intro c₁ c₂ r₁ r₂ hc hr
    rw [hc, hr]

/-- Claim C3, witness: a record whose description mentions both
"python" and "golang" matches the keyword checks of both table entries,
and the earlier entry "Python" wins. -/
theorem detect_language_first_match_deterministic_witness :
    detect_language (.ok ([] ++ (("Python", ["python", ".py"]) ::
      ([] ++ ("Go", ["golang", ".go"]) :: []))))
      [("repo_description", .PStr "python golang"), ("topics", .PStr ""),
       ("filenames", .PList [])] = .ok (some "Python") ∧
    detect_language (.ok exTable) exRepoDesc = detect_language (.ok exTable) exRepoDesc :=
  ⟨detect_language_first_match_deterministic.1
      [("repo_description", .PStr "python golang"), ("topics", .PStr ""),
       ("filenames", .PList [])] "python golang" "" [] [] [] []
      "Python" "Go" ["python", ".py"] ["golang", ".go"]
      (by rfl) (by rfl) (by rfl) (by intro p hp; simp at hp) (by rfl) (by rfl),
   detect_language_first_match_deterministic.2 (.ok exTable) (.ok exTable)
      exRepoDesc exRepoDesc rfl rfl⟩

/-- Claim C4: whenever the repo_description field is not a string, or
the topics field is not a string, or the filenames field is not a list
(a missing field included), `detect_language` returns `None` whatever
the remaining fields and the configuration contain. -/
theorem detect_language_bad_fields_none :
    ∀ (config : Except Unit (List (String × List String))) (repo : PyDict),
      (asStr (pyGet repo "repo_description") = none ∨
       asStr (pyGet repo "topics") = none ∨
       asList (pyGet repo "filenames") = none) →
      detect_language config repo = .ok none :=
  fun config repo h => detect_language_invalid_fields config repo h

/-- Claim C4, witness: the empty record (every field absent) with a
failing configuration still yields `None`. -/
theorem detect_language_bad_fields_none_witness :
    detect_language (Except.error ()) ([] : PyDict) = .ok none :=
  detect_language_bad_fields_none (Except.error ()) [] (Or.inl rfl)

/-- Claim C10: the field checks run before the configuration file is
opened, so for a record failing them the call succeeds with `None` even
when opening or parsing the configuration would fail, and the result
does not depend on the configuration at all. -/
theorem detect_language_checks_before_config :
    ∀ (repo : PyDict),
      (asStr (pyGet repo "repo_description") = none ∨
       asStr (pyGet repo "topics") = none ∨
       asList (pyGet repo "filenames") = none) →
      detect_language (Except.error ()) repo = .ok none ∧
      ∀ (c₁ c₂ : Except Unit (List (String × List String))),
        detect_language c₁ repo = detect_language c₂ repo := by
  intro repo h
  refine ⟨detect_language_invalid_fields _ repo h, fun c₁ c₂ => ?_⟩
  rw [detect_language_invalid_fields c₁ repo h, detect_language_invalid_fields c₂ repo h]

/-- Claim C10, witness: a record whose filenames field holds a string
instead of a list, evaluated against the missing-file configuration and
compared with a well-formed configuration. -/
theorem detect_language_checks_before_config_witness :
    detect_language (Except.error ())
      [("repo_description", .PStr "x"), ("topics", .PStr ""),
       ("filenames", .PStr "main.go")] = .ok none ∧
    detect_language (Except.error ())
      [("repo_description", .PStr "x"), ("topics", .PStr ""),
       ("filenames", .PStr "main.go")] =
    detect_language (.ok exTable)
      [("repo_description", .PStr "x"), ("topics", .PStr ""),
       ("filenames", .PStr "main.go")] :=
  ⟨(detect_language_checks_before_config
      [("repo_description", .PStr "x"), ("topics", .PStr ""),
       ("filenames", .PStr "main.go")] (Or.inr (Or.inr rfl))).1,
   (detect_language_checks_before_config
      [("repo_description", .PStr "x"), ("topics", .PStr ""),
       ("filenames", .PStr "main.go")] (Or.inr (Or.inr rfl))).2
     (Except.error ()) (.ok exTable)⟩

/-! ### Helper lemmas about splitting -/

theorem splitPredAux_all_false (p : Char → Bool) (acc l : List Char)
    (h : ∀ c ∈ l, p c = false) :
    splitPredAux p acc l = [acc.reverse ++ l] := by
  induction l generalizing acc with
  | nil => simp [splitPredAux]
  | cons c cs ih =>
      have hc : p c = false := h c (by simp)
      have hcs : ∀ d ∈ cs, p d = false := fun d hd => h d (by simp [hd])
      simp [splitPredAux, hc, ih (c :: acc) hcs]

theorem splitPredAux_first_sep (p : Char → Bool) (acc l r : List Char) (c₀ : Char)
    (hc₀ : p c₀ = true) (h : ∀ c ∈ l, p c = false) :
    splitPredAux p acc (l ++ c₀ :: r) = (acc.reverse ++ l) :: splitPredAux p [] r := by
  induction l generalizing acc with
  | nil => simp [splitPredAux, hc₀]
  | cons c cs ih =>
      have hc : p c = false := h c (by simp)
      have hcs : ∀ d ∈ cs, p d = false := fun d hd => h d (by simp [hd])
      simp [splitPredAux, hc, ih (c :: acc) hcs]

/-- Claim C9: comma-splitting the topics field keeps surrounding
whitespace of every token.  Splitting any comma-free pieces joined by a
comma returns the pieces verbatim; for topics "a, python" the token is
" python", which is not an exact member match for "python"; and an
empty topics string contributes the empty-string token to the
candidate word set. -/
theorem detect_language_topics_tokens_untrimmed :
    (∀ s t : String, (∀ c ∈ s.data, c ≠ ',') → (∀ c ∈ t.data, c ≠ ',') →
      pySplitComma (s ++ "," ++ t) = [s, t]) ∧
    pySplitComma (pyLower "a, python") = ["a", " python"] ∧
    " python" ∈ textWords "" "a, python" ∧
    "python" ∉ textWords "" "a, python" ∧
    (∀ desc : String, "" ∈ textWords desc "") := by
  refine ⟨?_, by rfl, by decide, by decide, ?_⟩
  · intro s t hs ht
    have hdata : (s ++ "," ++ t).data = s.data ++ ',' :: t.data := by
      simp [String.data_append]
    rw [pySplitComma, hdata,
      splitPredAux_first_sep _ _ _ _ ',' (by decide)
        (fun c hc => by simpa using hs c hc),
      splitPredAux_all_false _ _ _ (fun c hc => by simpa using ht c hc)]
    rfl
  · intro desc
    have h : "" ∈ pySplitComma (pyLower "") := by decide
    exact List.mem_append_right _ h

/-- Claim C9, witness: the general comma-splitting fact applied to the
two comma-free pieces of "a, python". -/
theorem detect_language_topics_tokens_untrimmed_witness :
    pySplitComma ("a" ++ "," ++ " python") = ["a", " python"] ∧
    "" ∈ textWords "hello" "" :=
  ⟨detect_language_topics_tokens_untrimmed.1 "a" " python"
      (by decide) (by decide),
   detect_language_topics_tokens_untrimmed.2.2.2.2 "hello"⟩

/-! ### Claim theorems for extract_city -/

/-- Claim C5: whenever trimming, lowercasing and removing every
word-boundary occurrence of "egypt" leaves the empty string,
`extract_city` returns the sentinel string "Egypt"; in particular on
"Egypt" and on "  EGYPT  ". -/
theorem extract_city_country_only :
    (∀ s : String, stripEgypt (pyLower (pyStrip s)) = "" →
      extract_city (.PStr s) = some "Egypt") ∧
    extract_city (.PStr "Egypt") = some "Egypt" ∧
    extract_city (.PStr "  EGYPT  ") = some "Egypt" := by
  refine ⟨?_, by rfl, by rfl⟩
  intro s h
  simp [extract_city, h]

/-- Claim C5, witness: the input "Egypt" empties under country-word
removal and the theorem then forces the sentinel result. -/
theorem extract_city_country_only_witness :
    stripEgypt (pyLower (pyStrip "Egypt")) = "" ∧
    extract_city (.PStr "Egypt") = some "Egypt" :=
  ⟨by rfl, extract_city_country_only.1 "Egypt" (by rfl)⟩

/-- Claim C6: when the trimmed, lowercased, country-word-removed form
is non-empty, `extract_city` deletes every character that is neither a
letter nor whitespace; if at least one word remains it returns the
words joined by single spaces and title-cased (so "Cairo, Egypt" gives
"Cairo"), and if no word remains it returns `None` (so "!!!" gives
`None`), not the "Egypt" sentinel. -/
theorem extract_city_letters_title :
    (∀ s : String,
      stripEgypt (pyLower (pyStrip s)) ≠ "" →
      (pySplitWs (cityLetters (stripEgypt (pyLower (pyStrip s)))) ≠ [] →
        extract_city (.PStr s) =
          some (pyTitle (" ".intercalate
            (pySplitWs (cityLetters (stripEgypt (pyLower (pyStrip s)))))))) ∧
      (pySplitWs (cityLetters (stripEgypt (pyLower (pyStrip s)))) = [] →
        extract_city (.PStr s) = none)) ∧
    extract_city (.PStr "Cairo, Egypt") = some "Cairo" ∧
    extract_city (.PStr "!!!") = none := by
  refine ⟨?_, by rfl, by rfl⟩
  intro s h
  constructor
  · intro hp
    simp [extract_city, h, List.length_pos.mpr hp]
  · intro hp
    simp [extract_city, h, hp]

/-- Claim C6, witness: both branches of the theorem at concrete
inputs — "Cairo, Egypt" keeps a word and is title-cased, "!!!" loses
every character and yields `None`. -/
theorem extract_city_letters_title_witness :
    extract_city (.PStr "Cairo, Egypt") =
      some (pyTitle (" ".intercalate
        (pySplitWs (cityLetters (stripEgypt (pyLower (pyStrip "Cairo, Egypt"))))))) ∧
    extract_city (.PStr "!!!") = none :=
  ⟨(extract_city_letters_title.1 "Cairo, Egypt" (by decide)).1 (by decide),
   (extract_city_letters_title.1 "!!!" (by decide)).2 (by decide)⟩

/-- Claim C7: `extract_city` is total — in this embedding it is a Lean
function returning an optional string on every `PyVal`, with no error
channel, because every operation on its path is total — and every
non-string input returns `None`. -/
theorem extract_city_nonstring_none :
    ∀ v : PyVal, (∀ s : String, v ≠ .PStr s) → extract_city v = none := by
  intro v h
  cases v with
  | PStr s => exact absurd rfl (h s)
  | PInt n => rfl
  | PList xs => rfl
  | PNone => rfl

/-- Claim C7, witness: the integer input 0 is not text and maps to
`None`. -/
theorem extract_city_nonstring_none_witness :
    extract_city (.PInt 0) = none :=
  extract_city_nonstring_none (.PInt 0) (fun _ h => PyVal.noConfusion h)

/-! ### Claim theorem for top_ranked_repos -/

/-- Claim C8: `top_ranked_repos` returns the first `n` rows (all rows
when the table is shorter) of the table sorted in descending order of
the feature column: the result has length `min n (df.length)`, is
itself sorted descending, and is the `n`-prefix of a descending-sorted
permutation of the table. -/
theorem top_ranked_repos_head_of_sorted :
    ∀ {α : Type} (df : List α) (key : α → Int) (n : Nat),
      (top_ranked_repos df key n).length = min n df.length ∧
      List.Sorted (rankDesc key) (top_ranked_repos df key n) ∧
      ∃ s : List α, List.Perm s df ∧ List.Sorted (rankDesc key) s ∧
        top_ranked_repos df key n = s.take n := by
  intro α df key n
  refine ⟨?_, ?_,
    ⟨List.insertionSort (rankDesc key) df, List.perm_insertionSort _ df,
     List.sorted_insertionSort _ df, rfl⟩⟩
  · rw [top_ranked_repos, List.length_take, List.length_insertionSort]
  · exact List.Pairwise.sublist (List.take_sublist _ _)
      (List.sorted_insertionSort _ df)
